import Mathlib

/-!
Verification development for the semantic-analysis core of an early zig
compiler (src/analyze.cpp, src/all_types.hpp).  Each definition is a
shallow embedding of the corresponding C++ function; theorems check the
natural-language specification against these embeddings.

Conventions of the embedding:
* `TypeTableEntry` handles are interned, so two handles are equal iff the
  types are structurally equal (data-model invariant 1).  Interned
  structural types are therefore modelled by a structural inductive
  `ZType`; struct, enum and fn types are nominal and carry their decl id.
  Distinct int table entries with equal signedness/width (i64 vs isize)
  are kept distinct through `entryTag`, mirroring the separate
  `TypeTableEntry` objects built in `define_builtin_types`.
* `zig_panic` / unreachable aborts are modelled with `Option` (`none` =
  the process aborts).
* Diagnostics (`add_node_error`) are accumulated in a list; each `ZDiag`
  constructor documents the exact C format string it stands for.
-/

/-- Mirrors `TypeTableEntryId` plus the per-id payload from
`all_types.hpp`.  `slice` stands for the `TypeTableEntryIdStruct` entries
with `is_unknown_size_array = true` built by
`get_unknown_size_array_type`; its two fields are
`ptr : Pointer(child, isConst)` and `len : isize`. -/
inductive ZType : Type
  | invalid
  | metaType
  | void
  | boolT
  | unreachable
  | undefLit
  | int (isSigned : Bool) (sizeInBits : Nat) (entryTag : Nat)
  | float (sizeInBits : Nat)
  | numLitInt
  | numLitFloat
  | pureError
  | pointer (child : ZType) (isConst : Bool)
  | array (child : ZType) (len : Nat)
  | slice (child : ZType) (isConst : Bool)
  | maybe (child : ZType)
  | errorUnion (child : ZType)
  | structT (declId : Nat)
  | enumT (declId : Nat)
  | fnT (declId : Nat)
  deriving DecidableEq, Repr

/-- The eight primitive int entries built by `define_builtin_types` carry
`entryTag` 0; `isize`/`usize` are separate `TypeTableEntry` objects with
the same signedness and (on the modelled 64-bit target) the same width,
kept distinct with `entryTag` 1. -/
def i32 : ZType := .int true 32 0

def i64 : ZType := .int true 64 0

def u8 : ZType := .int false 8 0

def u16 : ZType := .int false 16 0

def u32 : ZType := .int false 32 0

def u64 : ZType := .int false 64 0

def isizeT : ZType := .int true 64 1

/-- Compile-time numeric value (`BigNum` from the missing bignum.cpp).
Only the integer payload is observed by the analysis code under
verification; float values never reach an integer fit check
(`num_lit_fits_in_other_type` accepts every literal into a float type
without looking at the value). -/
inductive ZBigNum : Type
  | int (v : Int)
  | float
  deriving DecidableEq, Repr

/-- Diagnostics.  Each constructor stands for one `add_node_error` call
site; the doc string of each records the C format string. -/
inductive ZDiag : Type
  /-- Message "struct has infinite size" (resolve_struct_type), attached to the
  decl node of the struct carried here. -/
  | structHasInfiniteSize (declId : Nat)
  /-- Message "enum has infinite size" (resolve_enum_type). -/
  | enumHasInfiniteSize (declId : Nat)
  /-- Message "incompatible types: (prev) and (cur)"
  (determine_peer_type_compatibility). -/
  | incompatibleTypes (prev cur : ZType)
  /-- Message "string concatenation requires constant expression"
  (analyze_bin_op_expr, BinOpTypeStrCat). -/
  | strCatRequiresConst
  /-- Message "expected maybe type" (analyze_variable_declaration_raw with
  expr_is_maybe). -/
  | expectedMaybeType
  /-- Message "slice of non-array type (t)" (analyze_slice_expr). -/
  | sliceOfNonArrayType (t : ZType)
  /-- Message "redefinition of error (name)" (resolve_error_value_decl). -/
  | redefinitionOfError (name : Nat)
  /-- Message "use of undeclared identifier (name)" (analyze_symbol_expr). -/
  | useOfUndeclaredIdentifier (name : Nat)
  /-- Message "value (v) cannot be implicitly casted to type (t)", prefixed integer or float
  (num_lit_fits_in_other_type). -/
  | numLitImplicitCast (lit : ZBigNum) (target : ZType)
  /-- Message "redeclaration of variable (name)" (add_local_var). -/
  | redeclarationOfVariable (name : Nat)
  deriving DecidableEq, Repr

/-- Modelled from the spec: `bignum_fits_in_bits` lives in bignum.cpp,
which is not part of this repository.  The spec describes BigNum as the
arbitrary-precision compile-time integer and implicit literal conversion
as admitting exactly the literals representable in the target width, so
the usual two-complement ranges are used: signed types hold
`-2^(bits-1) .. 2^(bits-1)-1`, unsigned types hold `0 .. 2^bits-1`. -/
def bignumFitsInBits (v : Int) (bits : Nat) (isSigned : Bool) : Bool :=
  if isSigned then
    decide (-(2 ^ (bits - 1) : Int) ≤ v ∧ v < 2 ^ (bits - 1))
  else
    decide (0 ≤ v ∧ v < 2 ^ bits)

/-- Embeds `num_lit_fits_in_other_type` (analyze.cpp:1254).  Takes the
literal node's constant value (asserted `ok` in the source) and the
target type; returns the boolean result together with the diagnostics it
appends. -/
def numLitFits (lit : ZBigNum) (otherType : ZType) : Bool × List ZDiag :=
  match otherType with
  | .invalid => (false, [])
  | .float _ => (true, [])
  | .int s bits _ =>
    match lit with
    | .int v =>
      if bignumFitsInBits v bits s then (true, [])
      else (false, [.numLitImplicitCast lit otherType])
    | .float => (false, [.numLitImplicitCast lit otherType])
  | .numLitFloat =>
    match lit with
    | .float => (true, [])
    | .int _ => (false, [.numLitImplicitCast lit otherType])
  | .numLitInt =>
    match lit with
    | .int _ => (true, [])
    | .float => (false, [.numLitImplicitCast lit otherType])
  | t => (false, [.numLitImplicitCast lit t])

/-- Embeds `types_match_const_cast_only` (analyze.cpp:1289).  `none`
models the `zig_panic("TODO types_match_const_cast_only for fns")` hit
when both sides are function types that are not the same handle.  Handle
equality `expected_type == actual_type` is structural equality of
`ZType` (interning invariant). -/
def matchConstCastOnly (expected actual : ZType) : Option Bool :=
  if expected = actual then some true
  else
    match expected, actual with
    | .pointer ec econst, .pointer ac aconst =>
      if !aconst || econst then matchConstCastOnly ec ac else some false
    | .slice ec econst, .slice ac aconst =>
      if !aconst || econst then matchConstCastOnly ec ac else some false
    | .maybe ec, .maybe ac => matchConstCastOnly ec ac
    | .errorUnion ec, .errorUnion ac => matchConstCastOnly ec ac
    | .fnT _, .fnT _ => none
    | _, _ => some false

/-- Embeds the final number-literal branch of
`types_match_with_implicit_cast` (analyze.cpp:1472-1481) together with
the closing `return false`. -/
def numFinal (e a : ZType) (lit : ZBigNum) : Option (Bool × List ZDiag) :=
  if a = .numLitInt ∨ a = .numLitFloat then some (numLitFits lit e)
  else some (false, [])

/-- Embeds the non-recursive branches of `types_match_with_implicit_cast`
(analyze.cpp:1445-1481): pure error into error union, integer widening,
fixed array to unknown-size array, and the number-literal fit.  `none`
propagates the `zig_panic` from `types_match_const_cast_only` on the
element comparison of the array-to-slice branch. -/
def implicitTail (e a : ZType) (lit : ZBigNum) : Option (Bool × List ZDiag) :=
  match e, a with
  | .errorUnion _, .pureError => some (true, [])
  | .int es eb et, .int as2 ab _ =>
    if es = as2 && ab ≤ eb then some (true, [])
    else numFinal (.int es eb et) a lit
  | .slice ec ecst, .array ac alen =>
    (matchConstCastOnly ec ac).bind fun bm =>
      if bm then some (true, []) else numFinal (.slice ec ecst) (.array ac alen) lit
  | e2, a2 => numFinal e2 a2 lit

/-- Combines the result of the recursive `types_match_with_implicit_cast`
call on a wrapped payload with the evaluation of the remaining branches,
keeping diagnostic order (recursive call first). -/
def wrapCombine (innerRes tailRes : Option (Bool × List ZDiag)) :
    Option (Bool × List ZDiag) :=
  match innerRes with
  | none => none
  | some (true, es) => some (true, es)
  | some (false, es) =>
    match tailRes with
    | none => none
    | some (rb, es2) => some (rb, es ++ es2)

/-- Embeds `types_match_with_implicit_cast` (analyze.cpp:1422).  Returns
the boolean result together with the diagnostics appended by
`num_lit_fits_in_other_type`; `none` models a `zig_panic` abort reached
through `types_match_const_cast_only`.  `lit` is the constant value of
the `literal_node` argument.  The two recursive branches (payload of an
optional, payload of an error union) run before the remaining checks,
exactly as the `if` chain in the source short-circuits. -/
def typesMatchWithImplicitCast : ZType → ZType → ZBigNum →
    Option (Bool × List ZDiag)
  | e, a, lit =>
    match matchConstCastOnly e a with
    | none => none
    | some true => some (true, [])
    | some false =>
      match e with
      | .maybe inner =>
        wrapCombine (typesMatchWithImplicitCast inner a lit)
          (implicitTail (.maybe inner) a lit)
      | .errorUnion inner =>
        wrapCombine (typesMatchWithImplicitCast inner a lit)
          (implicitTail (.errorUnion inner) a lit)
      | e2 => implicitTail e2 a lit

/-- Claim C5 spec arm: expected is an error-union and actual is a pure
error. -/
def armPure (e a : ZType) : Bool :=
  match e, a with
  | .errorUnion _, .pureError => true
  | _, _ => false

/-- Claim C5 spec arm: both integer types of the same signedness with
expected width at least the actual width. -/
def armWiden (e a : ZType) : Bool :=
  match e, a with
  | .int es eb _, .int as2 ab _ => es = as2 && ab ≤ eb
  | _, _ => false

/-- Claim C5 spec arm: expected is a slice and actual a fixed array of
matching element type. -/
def armSlice (e a : ZType) : Bool :=
  match e, a with
  | .slice ec _, .array ac _ => matchConstCastOnly ec ac = some true
  | _, _ => false

/-- Claim C5 spec arm: actual is an unsuffixed numeric literal whose
value fits the expected type (fitting as decided by
`num_lit_fits_in_other_type`). -/
def armNum (e a : ZType) (lit : ZBigNum) : Bool :=
  (a = .numLitInt || a = .numLitFloat) && (numLitFits lit e).1

/-- Claim C5 spec arms that do not recurse: structural match up to
constness, pure-error wrap, integer widening, array-to-slice, numeric
literal fit. -/
def specBase (e a : ZType) (lit : ZBigNum) : Bool :=
  decide (matchConstCastOnly e a = some true) || armPure e a ||
    armWiden e a || armSlice e a || armNum e a lit

/-- The disjunction of conversion conditions stated by claim C5,
written from the claim text: structural match up to constness, OR
expected is an optional or error-union whose payload implicitly accepts
actual (wrapping), OR expected is an error-union and actual a pure
error, OR integer widening of equal signedness, OR fixed array to slice
of matching element, OR a numeric literal that fits. -/
def specImplicitMatch : ZType → ZType → ZBigNum → Bool
  | .maybe inner, a, lit =>
    specBase (.maybe inner) a lit || specImplicitMatch inner a lit
  | .errorUnion inner, a, lit =>
    specBase (.errorUnion inner) a lit || specImplicitMatch inner a lit
  | e, a, lit => specBase e a lit

theorem armPure_eq_true {e a : ZType} :
    armPure e a = true ↔ (∃ x, e = .errorUnion x) ∧ a = .pureError := by
  unfold armPure
  split
  · rename_i x
    exact iff_of_true rfl ⟨⟨x, rfl⟩, rfl⟩
  · rename_i hne
    refine iff_of_false (by simp) ?_
    rintro ⟨⟨x, rfl⟩, rfl⟩
    exact hne x rfl rfl

theorem armWiden_eq_true {e a : ZType} :
    armWiden e a = true ↔
      ∃ s eb ab et at2, e = .int s eb et ∧ a = .int s ab at2 ∧ ab ≤ eb := by
  unfold armWiden
  split
  · rename_i es eb et as2 ab at2
    simp only [Bool.and_eq_true, decide_eq_true_eq]
    constructor
    · rintro ⟨rfl, hle⟩
      exact ⟨es, eb, ab, et, at2, rfl, rfl, hle⟩
    · rintro ⟨s, eb2, ab2, et2, at3, he, ha, hle⟩
      cases he; cases ha
      exact ⟨rfl, hle⟩
  · rename_i hne
    refine iff_of_false (by simp) ?_
    rintro ⟨s, eb, ab, et, at2, rfl, rfl, hle⟩
    exact hne s eb et s ab at2 rfl rfl

theorem armSlice_eq_true {e a : ZType} :
    armSlice e a = true ↔
      ∃ ec c1 ac alen, e = .slice ec c1 ∧ a = .array ac alen ∧
        matchConstCastOnly ec ac = some true := by
  unfold armSlice
  split
  · rename_i ec c1 ac alen
    simp only [decide_eq_true_eq]
    constructor
    · intro hm
      exact ⟨ec, c1, ac, alen, rfl, rfl, hm⟩
    · rintro ⟨ec2, c2, ac2, alen2, he, ha, hm⟩
      cases he; cases ha
      exact hm
  · rename_i hne
    refine iff_of_false (by simp) ?_
    rintro ⟨ec, c1, ac, alen, rfl, rfl, hm⟩
    exact hne ec c1 ac alen rfl rfl

theorem armNum_eq_true {e a : ZType} {lit : ZBigNum} :
    armNum e a lit = true ↔
      (a = .numLitInt ∨ a = .numLitFloat) ∧ (numLitFits lit e).1 = true := by
  unfold armNum
  rw [Bool.and_eq_true, Bool.or_eq_true, decide_eq_true_eq, decide_eq_true_eq]

theorem numFinal_true_iff {e a : ZType} {lit : ZBigNum} {r : Bool × List ZDiag}
    (h : numFinal e a lit = some r) : r.1 = true ↔ armNum e a lit = true := by
  unfold numFinal at h
  split at h
  · rename_i hnum
    cases h
    rw [armNum_eq_true]
    exact ⟨fun hf => ⟨hnum, hf⟩, fun hb => hb.2⟩
  · rename_i hnum
    cases h
    refine iff_of_false (by simp) ?_
    intro harm
    exact hnum (armNum_eq_true.mp harm).1

theorem implicitTail_true_iff {e a : ZType} {lit : ZBigNum} {r : Bool × List ZDiag}
    (h : implicitTail e a lit = some r) :
    r.1 = true ↔
      (armPure e a || armWiden e a || armSlice e a || armNum e a lit) = true := by
  unfold implicitTail at h
  split at h
  · cases h
    rename_i x
    refine iff_of_true rfl ?_
    have : armPure (.errorUnion x) .pureError = true := by
      rw [armPure_eq_true]; exact ⟨⟨x, rfl⟩, rfl⟩
    simp [this]
  · rename_i es eb et as2 ab at2
    split at h
    · rename_i hcond
      cases h
      refine iff_of_true rfl ?_
      have : armWiden (.int es eb et) (.int as2 ab at2) = true := by
        unfold armWiden; exact hcond
      simp [this]
    · rename_i hcond
      rw [numFinal_true_iff h]
      have hw : armWiden (.int es eb et) (.int as2 ab at2) = false := by
        unfold armWiden
        exact Bool.not_eq_true _ |>.mp hcond
      have hp : armPure (.int es eb et) (.int as2 ab at2) = false := by
        unfold armPure; rfl
      have hs : armSlice (.int es eb et) (.int as2 ab at2) = false := by
        unfold armSlice; rfl
      simp [hw, hp, hs]
  · rename_i ec ecst ac alen
    rcases hm : matchConstCastOnly ec ac with _ | bm <;> rw [hm] at h
    · simp at h
    · simp only [Option.some_bind] at h
      cases bm
      · rw [if_neg (by simp)] at h
        rw [numFinal_true_iff h]
        have hs : armSlice (.slice ec ecst) (.array ac alen) = false := by
          unfold armSlice; simp [hm]
        have hp : armPure (.slice ec ecst) (.array ac alen) = false := by
          unfold armPure; rfl
        have hw : armWiden (.slice ec ecst) (.array ac alen) = false := by
          unfold armWiden; rfl
        simp [hs, hp, hw]
      · rw [if_pos rfl] at h
        cases h
        refine iff_of_true rfl ?_
        have : armSlice (.slice ec ecst) (.array ac alen) = true := by
          rw [armSlice_eq_true]
          exact ⟨ec, ecst, ac, alen, rfl, rfl, hm⟩
        simp [this]
  all_goals
    first
      | (rename_i h1 h2 h3
         exact (h1 _ rfl rfl).elim)
      | (rename_i h1 h2 h3
         exact (h2 _ _ _ _ _ _ rfl rfl).elim)
      | (rename_i h1 h2 h3
         exact (h3 _ _ _ _ rfl rfl).elim)
      | (rename_i h1 h2 h3
         rw [numFinal_true_iff h]
         simp [armPure, armWiden, armSlice])

theorem wrapCombine_eq_some {ir tr : Option (Bool × List ZDiag)}
    {r : Bool × List ZDiag} (h : wrapCombine ir tr = some r) :
    ((∃ es, ir = some (true, es)) ∧ r.1 = true) ∨
      (∃ es rb es2, ir = some (false, es) ∧ tr = some (rb, es2) ∧
        r = (rb, es ++ es2)) := by
  rcases ir with _ | ⟨rb1, es⟩
  · simp [wrapCombine] at h
  · rcases rb1
    · rcases tr with _ | ⟨rb2, es2⟩
      · simp [wrapCombine] at h
      · simp [wrapCombine] at h
        exact Or.inr ⟨es, rb2, es2, rfl, rfl, h.symm⟩
    · simp [wrapCombine] at h
      exact Or.inl ⟨⟨es, rfl⟩, by rw [← h]⟩

theorem typesMatch_nonwrap (e a : ZType) (lit : ZBigNum)
    (hm : ∀ x, e ≠ .maybe x) (he : ∀ x, e ≠ .errorUnion x) :
    typesMatchWithImplicitCast e a lit =
      match matchConstCastOnly e a with
      | none => none
      | some true => some (true, [])
      | some false => implicitTail e a lit := by
  cases e
  case maybe x => exact absurd rfl (hm x)
  case errorUnion x => exact absurd rfl (he x)
  all_goals (rw [typesMatchWithImplicitCast] <;> (intro inner hinner; cases hinner))

theorem typesMatch_maybe (inner a : ZType) (lit : ZBigNum) :
    typesMatchWithImplicitCast (.maybe inner) a lit =
      match matchConstCastOnly (.maybe inner) a with
      | none => none
      | some true => some (true, [])
      | some false =>
        wrapCombine (typesMatchWithImplicitCast inner a lit)
          (implicitTail (.maybe inner) a lit) := by
  rw [typesMatchWithImplicitCast]

theorem typesMatch_errorUnion (inner a : ZType) (lit : ZBigNum) :
    typesMatchWithImplicitCast (.errorUnion inner) a lit =
      match matchConstCastOnly (.errorUnion inner) a with
      | none => none
      | some true => some (true, [])
      | some false =>
        wrapCombine (typesMatchWithImplicitCast inner a lit)
          (implicitTail (.errorUnion inner) a lit) := by
  rw [typesMatchWithImplicitCast]

theorem specImplicitMatch_nonwrap (e a : ZType) (lit : ZBigNum)
    (hm : ∀ x, e ≠ .maybe x) (he : ∀ x, e ≠ .errorUnion x) :
    specImplicitMatch e a lit = specBase e a lit := by
  cases e
  case maybe x => exact absurd rfl (hm x)
  case errorUnion x => exact absurd rfl (he x)
  all_goals rfl

theorem specBase_of_constFalse {e a : ZType} {lit : ZBigNum}
    (heq : matchConstCastOnly e a = some false) :
    specBase e a lit =
      (armPure e a || armWiden e a || armSlice e a || armNum e a lit) := by
  unfold specBase
  simp [heq, Bool.or_assoc]

/-- Claim C5: `types_match_with_implicit_cast(expected, actual)` returns
true exactly when one of the listed conditions holds: structural match
up to constness, wrapping into an optional or error-union whose payload
implicitly accepts the actual type, error-union accepting a pure error,
integer widening of equal signedness, fixed array to slice of matching
element type, or a numeric literal whose value fits the expected type. -/
theorem c5_types_match_with_implicit_cast_iff (e : ZType) :
    ∀ (a : ZType) (lit : ZBigNum) (r : Bool × List ZDiag),
      typesMatchWithImplicitCast e a lit = some r →
      (r.1 = true ↔ specImplicitMatch e a lit = true) := by
  induction e with
  | maybe inner ih =>
    intro a lit r h
    rw [typesMatch_maybe] at h
    split at h
    · exact absurd h (by simp)
    · rename_i heq
      cases h
      refine iff_of_true rfl ?_
      simp [specImplicitMatch, specBase, heq]
    · rename_i heq
      rcases wrapCombine_eq_some h with ⟨⟨es, hin⟩, hr⟩ | ⟨es, rb, es2, hin, ht, hr⟩
      · refine iff_of_true hr ?_
        have hspec : specImplicitMatch inner a lit = true :=
          (ih a lit _ hin).mp rfl
        simp [specImplicitMatch, hspec]
      · have hspecF : specImplicitMatch inner a lit = false := by
          have h2 := ih a lit _ hin
          simp only [show (false, es).1 = false from rfl] at h2
          rcases hs : specImplicitMatch inner a lit
          · rfl
          · exact absurd (h2.mpr hs) (by simp)
        have htail := implicitTail_true_iff ht
        subst hr
        simp only [show (rb, es ++ es2).1 = rb from rfl]
        rw [show ((rb, es2) : Bool × List ZDiag).1 = rb from rfl] at htail
        rw [htail]
        simp [specImplicitMatch, specBase_of_constFalse heq, hspecF]
  | errorUnion inner ih =>
    intro a lit r h
    rw [typesMatch_errorUnion] at h
    split at h
    · exact absurd h (by simp)
    · rename_i heq
      cases h
      refine iff_of_true rfl ?_
      simp [specImplicitMatch, specBase, heq]
    · rename_i heq
      rcases wrapCombine_eq_some h with ⟨⟨es, hin⟩, hr⟩ | ⟨es, rb, es2, hin, ht, hr⟩
      · refine iff_of_true hr ?_
        have hspec : specImplicitMatch inner a lit = true :=
          (ih a lit _ hin).mp rfl
        simp [specImplicitMatch, hspec]
      · have hspecF : specImplicitMatch inner a lit = false := by
          have h2 := ih a lit _ hin
          simp only [show (false, es).1 = false from rfl] at h2
          rcases hs : specImplicitMatch inner a lit
          · rfl
          · exact absurd (h2.mpr hs) (by simp)
        have htail := implicitTail_true_iff ht
        subst hr
        simp only [show (rb, es ++ es2).1 = rb from rfl]
        rw [show ((rb, es2) : Bool × List ZDiag).1 = rb from rfl] at htail
        rw [htail]
        simp [specImplicitMatch, specBase_of_constFalse heq, hspecF]
  | _ =>
    intro a lit r h
    rw [typesMatch_nonwrap _ _ _ (fun x hx => by cases hx) (fun x hx => by cases hx)] at h
    rw [specImplicitMatch_nonwrap _ _ _ (fun x hx => by cases hx) (fun x hx => by cases hx)]
    split at h
    · exact absurd h (by simp)
    · rename_i heq
      cases h
      refine iff_of_true rfl ?_
      simp [specBase, heq]
    · rename_i heq
      rw [implicitTail_true_iff h, specBase_of_constFalse heq]

/-- Claim C6 counterexample: for the distinct interned function types
`fnT 0` and `fnT 1`, `types_match_const_cast_only` does not return a
boolean at all — it aborts through
`zig_panic("TODO types_match_const_cast_only for fns")`
(analyze.cpp:1337), modelled by `none`. -/
theorem c6_counterexample : matchConstCastOnly (ZType.fnT 0) (ZType.fnT 1) = none := by
  decide

/-- Claim C6 amended: for every pair of distinct interned function types
`types_match_const_cast_only` aborts the process via `zig_panic`
(the fn case is an unimplemented TODO) instead of deciding the relation;
only the identical handle compares, returning true through the
handle-equality shortcut. -/
theorem c6_fn_const_cast_panics (a b : Nat) :
    (a ≠ b → matchConstCastOnly (.fnT a) (.fnT b) = none) ∧
      matchConstCastOnly (.fnT a) (.fnT a) = some true := by
  constructor
  · intro hne
    unfold matchConstCastOnly
    rw [if_neg (by simp [hne])]
  · unfold matchConstCastOnly
    rw [if_pos rfl]

theorem c6_fn_const_cast_panics_witness :
    matchConstCastOnly (ZType.fnT 0) (ZType.fnT 1) = none ∧
      matchConstCastOnly (ZType.fnT 0) (ZType.fnT 0) = some true :=
  ⟨(c6_fn_const_cast_panics 0 1).1 (by decide), (c6_fn_const_cast_panics 0 1).2⟩

/-- One peer expression as seen by `determine_peer_type_compatibility`:
its resolved type and (for number-literal typed nodes, which the source
asserts always carry an `ok` constant) the constant value consulted by
`num_lit_fits_in_other_type`. -/
structure Peer where
  ty : ZType
  lit : ZBigNum := .int 0
  deriving Repr

/-- Outcome of one iteration of the loop in
`determine_peer_type_compatibility` (analyze.cpp:1352-1418). -/
inductive PeerAct : Type
  | keepPrev
  | takeCur
  | stop (result : ZType) (newErrs : List ZDiag)
  | panicked
  deriving Repr

/-- Branches of the loop body from the number-literal checks to the
final "incompatible types" error (analyze.cpp:1393-1417). -/
def peerDecideNumLit (prev cur : Peer) : PeerAct :=
  if prev.ty = .numLitInt ∨ prev.ty = .numLitFloat then
    match numLitFits prev.lit cur.ty with
    | (true, _) => .takeCur
    | (false, es) => .stop .invalid es
  else if cur.ty = .numLitInt ∨ cur.ty = .numLitFloat then
    match numLitFits cur.lit prev.ty with
    | (true, _) => .keepPrev
    | (false, es) => .stop .invalid es
  else
    .stop .invalid [.incompatibleTypes prev.ty cur.ty]

/-- Error-union absorption branches (analyze.cpp:1383-1392);
short-circuit evaluation means `types_match_const_cast_only` (and its
potential panic) runs only when the id test passes. -/
def peerDecideErr (prev cur : Peer) : PeerAct :=
  match prev.ty with
  | .errorUnion pc =>
    (match matchConstCastOnly pc cur.ty with
     | none => .panicked
     | some true => .keepPrev
     | some false =>
       match cur.ty with
       | .errorUnion cc =>
         (match matchConstCastOnly cc prev.ty with
          | none => .panicked
          | some true => .takeCur
          | some false => peerDecideNumLit prev cur)
       | _ => peerDecideNumLit prev cur)
  | _ =>
    match cur.ty with
    | .errorUnion cc =>
      (match matchConstCastOnly cc prev.ty with
       | none => .panicked
       | some true => .takeCur
       | some false => peerDecideNumLit prev cur)
    | _ => peerDecideNumLit prev cur

/-- Widening branches for two ints of equal signedness or two floats
(analyze.cpp:1368-1382); any other combination falls through to the
error-union and number-literal branches. -/
def peerDecideWiden (prev cur : Peer) : PeerAct :=
  match prev.ty, cur.ty with
  | .int ps pb _, .int cs cb _ =>
    if ps = cs then (if pb < cb then .takeCur else .keepPrev)
    else peerDecideErr prev cur
  | .float pb, .float cb =>
    if pb < cb then .takeCur else .keepPrev
  | _, _ => peerDecideErr prev cur

/-- One full iteration of the loop body of
`determine_peer_type_compatibility` for the peer `cur` against the
running `prev`. -/
def peerDecide (prev cur : Peer) : PeerAct :=
  if cur.ty = .invalid then .stop cur.ty []
  else
    match matchConstCastOnly prev.ty cur.ty with
    | none => .panicked
    | some true => .keepPrev
    | some false =>
      match matchConstCastOnly cur.ty prev.ty with
      | none => .panicked
      | some true => .takeCur
      | some false =>
        if prev.ty = .unreachable then .takeCur
        else if cur.ty = .unreachable then .keepPrev
        else peerDecideWiden prev cur

/-- The loop of `determine_peer_type_compatibility`, accumulating
diagnostics; `none` models a `zig_panic` abort. -/
def peerLoop : Peer → List Peer → List ZDiag → Option (ZType × List ZDiag)
  | prev, [], errs => some (prev.ty, errs)
  | prev, cur :: rest, errs =>
    match peerDecide prev cur with
    | .keepPrev => peerLoop prev rest errs
    | .takeCur => peerLoop cur rest errs
    | .stop t es => some (t, errs ++ es)
    | .panicked => none

/-- Embeds `determine_peer_type_compatibility` (analyze.cpp:1344) for a
non-empty peer list (the caller asserts `child_count > 0`).  Returns
the chosen type and the diagnostics emitted. -/
def determinePeerTypeCompatibility (first : Peer) (rest : List Peer) :
    Option (ZType × List ZDiag) :=
  if first.ty = .invalid then some (first.ty, [])
  else peerLoop first rest []

/-- Claim C3 counterexample: for the peers i32 and i64 (the two typed
branches of `var x = if (cond) i32_val else i64_val;`),
`determine_peer_type_compatibility` does not report
"incompatible types: 'i32' and 'i64'" — it emits no diagnostic at all
and picks the wider type i64 as the common type (analyze.cpp:1368-1375
widens equal-signedness ints). -/
theorem c3_counterexample :
    determinePeerTypeCompatibility { ty := i32 } [{ ty := i64 }] =
        some (i64, []) ∧
      ((determinePeerTypeCompatibility { ty := i32 }
          [{ ty := i64 }]).getD (ZType.invalid, [])).2 = [] ∧
      ((determinePeerTypeCompatibility { ty := i32 }
          [{ ty := i64 }]).getD (ZType.invalid, [])).1 ≠ ZType.invalid := by
  decide

/-- Claim C3 amended: peer unification of two integer peers of the same
signedness never reports an error; it chooses the wider of the two
types (the in-source widening rule), i.e. the result is the int of the
maximal width and the diagnostic list stays empty. -/
theorem c3_same_signed_int_peers_widen (s : Bool) (pb cb tg : Nat) :
    determinePeerTypeCompatibility { ty := .int s pb tg } [{ ty := .int s cb tg }] =
      some (.int s (max pb cb) tg, []) := by
  unfold determinePeerTypeCompatibility
  rw [if_neg (by simp)]
  unfold peerLoop peerDecide
  rcases Nat.lt_trichotomy pb cb with hlt | heq | hgt
  · have hne : (ZType.int s pb tg) ≠ (ZType.int s cb tg) := by
      simp; omega
    have h1 : matchConstCastOnly (.int s pb tg) (.int s cb tg) = some false := by
      unfold matchConstCastOnly
      rw [if_neg hne]
    have h2 : matchConstCastOnly (.int s cb tg) (.int s pb tg) = some false := by
      unfold matchConstCastOnly
      rw [if_neg (Ne.symm hne)]
    simp only [h1, h2]
    rw [if_neg (by simp), if_neg (by simp), if_neg (by simp)]
    simp [peerDecideWiden, peerLoop, hlt, Nat.max_eq_right (Nat.le_of_lt hlt)]
  · subst heq
    have h1 : matchConstCastOnly (.int s pb tg) (.int s pb tg) = some true := by
      unfold matchConstCastOnly
      rw [if_pos rfl]
    simp only [h1]
    rw [if_neg (by simp)]
    unfold peerLoop
    simp
  · have hne : (ZType.int s pb tg) ≠ (ZType.int s cb tg) := by
      simp; omega
    have h1 : matchConstCastOnly (.int s pb tg) (.int s cb tg) = some false := by
      unfold matchConstCastOnly
      rw [if_neg hne]
    have h2 : matchConstCastOnly (.int s cb tg) (.int s pb tg) = some false := by
      unfold matchConstCastOnly
      rw [if_neg (Ne.symm hne)]
    simp only [h1, h2]
    rw [if_neg (by simp), if_neg (by simp), if_neg (by simp)]
    simp [peerDecideWiden, peerLoop, Nat.not_lt.mpr (Nat.le_of_lt hgt),
      Nat.max_eq_left (Nat.le_of_lt hgt)]

theorem c5_types_match_with_implicit_cast_iff_witness :
    specImplicitMatch i64 i32 (ZBigNum.int 5) = true :=
  (c5_types_match_with_implicit_cast_iff i64 i32 (ZBigNum.int 5) (true, [])
    (by decide)).mp rfl

/-- Embeds `analyze_slice_expr` (analyze.cpp:1909): takes the analyzed
type of the base expression, the slice expression's const flag and
whether an `end` expression is present; returns the result type and the
diagnostics.  The start/end subexpressions are analyzed against `isize`
for their own diagnostics only; the source never inspects whether `end`
is present when computing the result, so `hasEnd` is unused — which is
exactly what claim C8 is about. -/
def analyzeSliceExpr (arrayType : ZType) (isConst : Bool) (hasEnd : Bool) :
    ZType × List ZDiag :=
  match arrayType with
  | .invalid => (.invalid, [])
  | .array child _ => (.slice child isConst, [])
  | .pointer child _ => (.slice child isConst, [])
  | .slice child _ => (.slice child isConst, [])
  | t => (.invalid, [.sliceOfNonArrayType t])

/-- Claim C8 (code bug): slicing a raw pointer base with no `end`
expression is not rejected — `analyze_slice_expr` returns the slice
type with no diagnostic, identical to the result with `end` present
(the embedding's `hasEnd` flag cannot influence the result).  The
backend `gen_slice_expr` (all_types.hpp:1798) then unconditionally
evaluates the null `end` node for a pointer base. -/
theorem c8_pointer_slice_missing_end_not_rejected :
    analyzeSliceExpr (.pointer u8 false) false false = (.slice u8 false, []) ∧
      analyzeSliceExpr (.pointer u8 false) false false =
        analyzeSliceExpr (.pointer u8 false) false true := by
  decide

/-- The `x_struct` payload of a constant slice value as read by the
string-concatenation branch: `fields[0]` is the pointer field whose
`x_ptr.ptr` array is `bytes`, `fields[1]` is the length bignum whose
unsigned payload is `lenVal`.  The copy loops index `bytes` by
`lenVal`; out-of-range reads (impossible for values built by the
analyzer, where `lenVal` counts exactly the allocated pointees) default
to 0. -/
structure SliceConstVal where
  bytes : List ZBigNum
  lenVal : Nat
  deriving DecidableEq, Repr

/-- The analyzed state of one `++` operand: its resolved type and
constant-value status, with the slice payload when constant. -/
structure StrCatOperand where
  ty : ZType
  constOk : Bool
  val : SliceConstVal := { bytes := [], lenVal := 0 }
  deriving DecidableEq, Repr

/-- `str_type = get_unknown_size_array_type(g, u8, true)`
(analyze.cpp:2548). -/
def strCatResultType : ZType := .slice u8 true

/-- Embeds the `BinOpTypeStrCat` branch of `analyze_bin_op_expr`
(analyze.cpp:2543-2604): invalid operands poison silently; a
non-constant operand reports "string concatenation requires constant
expression" (first offender only) and yields Invalid; otherwise the
result is an ok constant whose length field is the uint64 sum of the
operands' length fields and whose pointee array is the left bytes
followed by the right bytes. -/
def analyzeStrCat (op1 op2 : StrCatOperand) :
    ZType × Option SliceConstVal × List ZDiag :=
  if op1.ty = .invalid ∨ op2.ty = .invalid then (.invalid, none, [])
  else if op1.constOk = false then (.invalid, none, [.strCatRequiresConst])
  else if op2.constOk = false then (.invalid, none, [.strCatRequiresConst])
  else
    let l1 := op1.val.lenVal
    let l2 := op2.val.lenVal
    (strCatResultType,
      some { bytes :=
               ((List.range l1).map fun i => op1.val.bytes.getD i (.int 0)) ++
                 ((List.range l2).map fun i => op2.val.bytes.getD i (.int 0)),
             lenVal := (l1 + l2) % 2 ^ 64 },
      [])

theorem range_map_getD (xs : List ZBigNum) :
    ((List.range xs.length).map fun i => xs.getD i (.int 0)) = xs := by
  apply List.ext_getElem
  · simp
  · intro i h1 h2
    simp only [List.getElem_map, List.getElem_range]
    exact List.getD_eq_getElem xs _ h2

/-- Claim C4: when both `++` operands are constant u8 string data in
slice form, the result is an ok constant of type const slice of u8
whose length field is the sum of the operand lengths and whose pointee
sequence is the left bytes followed by the right bytes; when an operand
is not a compile-time constant, the error "string concatenation
requires constant expression" is reported and the result type is
Invalid. -/
theorem c4_str_cat :
    (∀ op1 op2 : StrCatOperand,
      op1.ty = strCatResultType → op2.ty = strCatResultType →
      op1.constOk = true → op2.constOk = true →
      op1.val.lenVal = op1.val.bytes.length →
      op2.val.lenVal = op2.val.bytes.length →
      op1.val.lenVal + op2.val.lenVal < 2 ^ 64 →
      analyzeStrCat op1 op2 =
        (strCatResultType,
          some { bytes := op1.val.bytes ++ op2.val.bytes,
                 lenVal := op1.val.lenVal + op2.val.lenVal },
          [])) ∧
    (∀ op1 op2 : StrCatOperand,
      op1.ty ≠ .invalid → op2.ty ≠ .invalid →
      (op1.constOk = false ∨ op2.constOk = false) →
      analyzeStrCat op1 op2 = (.invalid, none, [.strCatRequiresConst])) := by
  constructor
  · intro op1 op2 ht1 ht2 hc1 hc2 hl1 hl2 hsum
    unfold analyzeStrCat
    rw [if_neg (by simp [ht1, ht2, strCatResultType]), if_neg (by simp [hc1]),
      if_neg (by simp [hc2])]
    simp only [hl1, hl2, range_map_getD]
    rw [Nat.mod_eq_of_lt (by omega : op1.val.bytes.length + op2.val.bytes.length < 2 ^ 64)]
  · intro op1 op2 ht1 ht2 hc
    unfold analyzeStrCat
    rcases hc with hc | hc
    · simp [ht1, ht2, hc]
    · rcases h1 : op1.constOk <;> simp [ht1, ht2, hc, h1]

theorem c4_str_cat_witness :
    analyzeStrCat
        { ty := strCatResultType, constOk := true,
          val := { bytes := [.int 102, .int 111, .int 111], lenVal := 3 } }
        { ty := strCatResultType, constOk := true,
          val := { bytes := [.int 98, .int 97, .int 114], lenVal := 3 } } =
      (strCatResultType,
        some { bytes := [.int 102, .int 111, .int 111, .int 98, .int 97, .int 114],
               lenVal := 6 },
        []) ∧
    analyzeStrCat
        { ty := strCatResultType, constOk := true,
          val := { bytes := [.int 102], lenVal := 1 } }
        { ty := strCatResultType, constOk := false } =
      (.invalid, none, [.strCatRequiresConst]) := by
  constructor
  · exact c4_str_cat.1
      { ty := strCatResultType, constOk := true,
        val := { bytes := [.int 102, .int 111, .int 111], lenVal := 3 } }
      { ty := strCatResultType, constOk := true,
        val := { bytes := [.int 98, .int 97, .int 114], lenVal := 3 } }
      rfl rfl rfl rfl rfl rfl (by decide)
  · exact c4_str_cat.2
      { ty := strCatResultType, constOk := true,
        val := { bytes := [.int 102], lenVal := 1 } }
      { ty := strCatResultType, constOk := false }
      (by decide) (by decide) (Or.inr rfl)

/-- Embeds `bits_needed_for_unsigned` (analyze.cpp:137): 8 for values up
to UINT8_MAX, 16 up to UINT16_MAX, 32 up to UINT32_MAX, else 64. -/
def bitsNeededForUnsigned (x : Nat) : Nat :=
  if x ≤ 255 then 8
  else if x ≤ 65535 then 16
  else if x ≤ 4294967295 then 32
  else 64

/-- Embeds `get_smallest_unsigned_int_type` (analyze.cpp:149). -/
def getSmallestUnsignedIntType (x : Nat) : ZType :=
  .int false (bitsNeededForUnsigned x) 0

/-- `codegen_create` (all_types.hpp:1123) initializes
`error_value_count = 1`; the first pass of `semantic_analyze`
(analyze.cpp:4834) adds 1 per top-level `ErrorValueDecl`; the counter is
a uint32. -/
def sessionErrorValueCount (declCount : Nat) : Nat := (1 + declCount) % 2 ^ 32

/-- `semantic_analyze` (analyze.cpp:4841):
`err_tag_type = get_smallest_unsigned_int_type(g, error_value_count)`. -/
def sessionErrTagType (declCount : Nat) : ZType :=
  getSmallestUnsignedIntType (sessionErrorValueCount declCount)

/-- Claim C9 counterexample: a session declaring N = 255 error values
(255 is in the claimed u8 range {1..256}) selects u16, not u8:
`error_value_count` starts at 1, so it reaches 256 > UINT8_MAX. -/
theorem c9_counterexample :
    sessionErrTagType 255 = u16 ∧ u16 ≠ u8 ∧ 1 ≤ 255 ∧ 255 ≤ 256 := by
  decide

/-- Claim C9 amended: for a session declaring N error values (N below
the uint32 wrap bound), the error-tag type is the smallest unsigned
type whose range covers the value `error_value_count = N + 1`
(the counter starts at 1): u8 exactly when N is in {0..254}, u16
exactly when N is in {255..65534}, and u32 for every larger N up to
the wrap bound. -/
theorem c9_err_tag_type_boundaries (n : Nat) (hn : n ≤ 4294967294) :
    (sessionErrTagType n = u8 ↔ n ≤ 254) ∧
      (sessionErrTagType n = u16 ↔ 255 ≤ n ∧ n ≤ 65534) ∧
      (sessionErrTagType n = u32 ↔ 65535 ≤ n) := by
  have hmod : sessionErrorValueCount n = 1 + n := by
    unfold sessionErrorValueCount
    exact Nat.mod_eq_of_lt (by omega)
  unfold sessionErrTagType getSmallestUnsignedIntType bitsNeededForUnsigned
  rw [hmod]
  unfold u8 u16 u32
  split_ifs <;> refine ⟨⟨fun h2 => ?_, fun h2 => ?_⟩, ⟨fun h2 => ?_, fun h2 => ?_⟩,
      ⟨fun h2 => ?_, fun h2 => ?_⟩⟩ <;>
    first
      | rfl
      | omega
      | (simp at h2)
      | (exfalso; omega)

theorem c9_err_tag_type_boundaries_witness :
    sessionErrTagType 254 = u8 ∧ sessionErrTagType 255 = u16 ∧
      sessionErrTagType 65535 = u32 :=
  ⟨(c9_err_tag_type_boundaries 254 (by decide)).1.mpr (by decide),
   (c9_err_tag_type_boundaries 255 (by decide)).2.1.mpr (by decide),
   (c9_err_tag_type_boundaries 65535 (by decide)).2.2.mpr (by decide)⟩

/-- Session state consulted by `resolve_error_value_decl`: the uint32
`next_error_index` counter, the import's `error_table` (name keyed,
carrying each accepted entry's `value`), and the diagnostics. -/
structure ErrSession where
  nextErrorIndex : Nat
  errorTable : List (Nat × Nat)
  errors : List ZDiag
  deriving DecidableEq, Repr

/-- `codegen_create` (all_types.hpp:1122): `next_error_index = 1`. -/
def initErrSession : ErrSession :=
  { nextErrorIndex := 1, errorTable := [], errors := [] }

/-- Embeds `resolve_error_value_decl` (analyze.cpp:1012): the entry's
value is allocated and the counter advanced before the duplicate check;
a duplicate name reports "redefinition of error" and is not entered in
the table (its allocated index is simply lost).  The importer
propagation loop is skipped (single-import session). -/
def resolveErrorValueDecl (st : ErrSession) (name : Nat) : ErrSession :=
  let v := st.nextErrorIndex
  let st2 := { st with nextErrorIndex := (st.nextErrorIndex + 1) % 2 ^ 32 }
  if (st2.errorTable.lookup name).isSome then
    { st2 with errors := st2.errors ++ [.redefinitionOfError name] }
  else
    { st2 with errorTable := st2.errorTable ++ [(name, v)] }

/-- The dependency-detection pass resolves every top-level
`ErrorValueDecl` exactly once, in declaration order
(analyze.cpp:4693-4696, 1138-1139). -/
def resolveErrorValueDecls (st : ErrSession) (names : List Nat) : ErrSession :=
  names.foldl resolveErrorValueDecl st

/-- Claim C10 counterexample: after a session processes a single
`error` declaration, `next_error_index` is 2, not 1 — the counter
starts at 1 (`codegen_create`), so it never equals the number of
declarations seen. -/
theorem c10_counterexample :
    (resolveErrorValueDecls initErrSession [7]).nextErrorIndex = 2 ∧
      (2 : Nat) ≠ 1 := by
  decide

theorem resolveErrorValueDecls_invariant (names : List Nat) :
    ∀ st : ErrSession,
      st.nextErrorIndex + names.length < 2 ^ 32 →
      (∀ p ∈ st.errorTable, p.2 < st.nextErrorIndex) →
      (resolveErrorValueDecls st names).nextErrorIndex =
          st.nextErrorIndex + names.length ∧
        (∀ p ∈ (resolveErrorValueDecls st names).errorTable,
          p.2 < (resolveErrorValueDecls st names).nextErrorIndex) ∧
        (List.Chain' (· < ·) (st.errorTable.map Prod.snd) →
          List.Chain' (· < ·)
            ((resolveErrorValueDecls st names).errorTable.map Prod.snd)) ∧
        (∀ p ∈ st.errorTable, p ∈ (resolveErrorValueDecls st names).errorTable) := by
  induction names with
  | nil =>
    intro st hb hlt
    exact ⟨rfl, hlt, fun hc => hc, fun p hp => hp⟩
  | cons name rest ih =>
    intro st hb hlt
    have hstep : resolveErrorValueDecls st (name :: rest) =
        resolveErrorValueDecls (resolveErrorValueDecl st name) rest := rfl
    have hidx : (resolveErrorValueDecl st name).nextErrorIndex =
        st.nextErrorIndex + 1 := by
      unfold resolveErrorValueDecl
      have hmod : (st.nextErrorIndex + 1) % 2 ^ 32 = st.nextErrorIndex + 1 :=
        Nat.mod_eq_of_lt (by simp at hb; omega)
      dsimp only
      split <;> (simp [hmod]; simp at hb; omega)
    have htable : ((resolveErrorValueDecl st name).errorTable =
          st.errorTable) ∨
        ((resolveErrorValueDecl st name).errorTable =
          st.errorTable ++ [(name, st.nextErrorIndex)]) := by
      unfold resolveErrorValueDecl
      dsimp only
      split <;> simp
    have hlt2 : ∀ p ∈ (resolveErrorValueDecl st name).errorTable,
        p.2 < (resolveErrorValueDecl st name).nextErrorIndex := by
      rw [hidx]
      rcases htable with ht | ht <;> rw [ht]
      · intro p hp
        exact Nat.lt_succ_of_lt (hlt p hp)
      · intro p hp
        rcases List.mem_append.mp hp with hp2 | hp2
        · exact Nat.lt_succ_of_lt (hlt p hp2)
        · rcases List.mem_singleton.mp hp2 with rfl
          exact Nat.lt_succ_self _
    have hb2 : (resolveErrorValueDecl st name).nextErrorIndex + rest.length <
        2 ^ 32 := by
      rw [hidx]; simp at hb ⊢; omega
    obtain ⟨ih1, ih2, ih3, ih4⟩ := ih (resolveErrorValueDecl st name) hb2 hlt2
    refine ⟨?_, ?_, ?_, ?_⟩
    · rw [hstep, ih1, hidx]
      simp [Nat.add_assoc, Nat.add_comm 1 rest.length]
    · rw [hstep]; exact ih2
    · intro hc
      rw [hstep]
      apply ih3
      rcases htable with ht | ht <;> rw [ht]
      · exact hc
      · rw [List.map_append]
        rw [List.chain'_append]
        refine ⟨hc, by simp, ?_⟩
        intro x hx y hy
        simp only [List.map_cons, List.map_nil, List.head?_cons,
          Option.mem_def, Option.some.injEq] at hy
        subst hy
        have hxmem : x ∈ st.errorTable.map Prod.snd := by
          rcases List.mem_getLast?_eq_getLast hx with ⟨hne, rfl⟩
          exact List.getLast_mem hne
        rcases List.mem_map.mp hxmem with ⟨p, hp, rfl⟩
        exact hlt p hp
    · intro p hp
      rw [hstep]
      apply ih4
      rcases htable with ht | ht <;> rw [ht]
      · exact hp
      · exact List.mem_append.mpr (Or.inl hp)

theorem errorTable_persists :
    ∀ (more : List Nat) (st : ErrSession) (p : Nat × Nat),
      p ∈ st.errorTable → p ∈ (resolveErrorValueDecls st more).errorTable := by
  intro more
  induction more with
  | nil => intro st p hp; exact hp
  | cons nm rest ih =>
    intro st p hp
    have hstep : resolveErrorValueDecls st (nm :: rest) =
        resolveErrorValueDecls (resolveErrorValueDecl st nm) rest := rfl
    rw [hstep]
    apply ih
    unfold resolveErrorValueDecl
    dsimp only
    split
    · exact hp
    · exact List.mem_append.mpr (Or.inl hp)

/-- Claim C10 amended: every processed `error Name;` declaration,
duplicates included, advances `next_error_index` by exactly one (as a
uint32); accepted table entries carry strictly increasing indices in
declaration order and persist unchanged under later declarations; and
after the dependency-detection pass the counter equals 1 + the number
of declarations seen — not the number itself — because both
`next_error_index` and `error_value_count` start at 1
(matching `assert(error_value_count == next_error_index)`,
analyze.cpp:4862). -/
theorem c10_error_indices (names : List Nat)
    (hlen : names.length ≤ 2 ^ 32 - 2) :
    (∀ (st : ErrSession) (nm : Nat),
        (resolveErrorValueDecl st nm).nextErrorIndex =
          (st.nextErrorIndex + 1) % 2 ^ 32) ∧
      (resolveErrorValueDecls initErrSession names).nextErrorIndex =
          1 + names.length ∧
      List.Chain' (· < ·)
        ((resolveErrorValueDecls initErrSession names).errorTable.map Prod.snd) ∧
      (∀ (st : ErrSession) (more : List Nat) (p : Nat × Nat),
        p ∈ st.errorTable →
          p ∈ (resolveErrorValueDecls st more).errorTable) := by
  have hinv := resolveErrorValueDecls_invariant names initErrSession
    (by simp [initErrSession]; omega) (by simp [initErrSession])
  refine ⟨?_, ?_, ?_, fun st more p hp => errorTable_persists more st p hp⟩
  · intro st nm
    unfold resolveErrorValueDecl
    dsimp only
    split <;> rfl
  · rw [hinv.1]; simp [initErrSession, Nat.add_comm]
  · exact hinv.2.2.1 (by simp [initErrSession])

theorem c10_error_indices_witness :
    (resolveErrorValueDecls initErrSession [5, 9, 5]).nextErrorIndex = 1 + 3 ∧
      List.Chain' (· < ·)
        ((resolveErrorValueDecls initErrSession [5, 9, 5]).errorTable.map
          Prod.snd) :=
  ⟨(c10_error_indices [5, 9, 5] (by decide)).2.1,
   (c10_error_indices [5, 9, 5] (by decide)).2.2.1⟩

/-- One block context's variable table (name -> declared type), as
filled by `add_local_var`. -/
abbrev MiniScope := List (Nat × ZType)

/-- Walks the block-context parent chain like `find_local_variable` /
`find_variable` (analyze.cpp:1611-1631). -/
def findVar (ctx : List MiniScope) (name : Nat) : Option ZType :=
  match ctx with
  | [] => none
  | scope :: parent =>
    match scope.lookup name with
    | some t => some t
    | none => findVar parent name

/-- Mini expression language for the if-var contract: a symbol
reference (`analyze_symbol_expr`, variable path), an already-analyzed
operand of known type (carrying the constant for number-literal typed
operands), and `if (var x ?= expr) then else`
(`analyze_if_var_expr`). -/
inductive MiniExpr : Type
  | sym (name : Nat)
  | typed (ty : ZType) (lit : ZBigNum := .int 0)
  | ifVar (varName : Nat) (maybeExpr : MiniExpr) (thenB elseB : MiniExpr)

/-- The constant consulted when a peer has number-literal type (the
source asserts such nodes carry ok constants). -/
def miniLit : MiniExpr → ZBigNum
  | .typed _ lit => lit
  | _ => .int 0

/-- The `expr_is_maybe` narrowing in `analyze_variable_declaration_raw`
(analyze.cpp:2713-2721): an Invalid initializer is poison (no extra
diagnostic), an Optional initializer binds its payload type, anything
else reports "expected maybe type" and binds Invalid. -/
def ifVarDeclType (ety : ZType) : ZType × List ZDiag :=
  if ety = .invalid then (ety, [])
  else
    match ety with
    | .maybe child => (child, [])
    | _ => (.invalid, [.expectedMaybeType])

/-- Embeds the analyzer for the mini language.  `analyze_if_var_expr`
(analyze.cpp:3022) builds one child context, declares the bound
variable in it through `analyze_variable_declaration_raw` /
`add_local_var`, and then hands that same child context to
`analyze_if_then_else` (analyze.cpp:2988) for BOTH the then-block and
the else-node; with no expected type the branch types go through
`resolve_peer_type_compatibility`.  The redeclaration check of
`add_local_var` is included; the primitive/container shadow checks are
vacuous here (the model's contexts hold no type tables).  `none`
propagates a `zig_panic`. -/
def analyzeMini : List MiniScope → MiniExpr → Option (ZType × List ZDiag)
  | _, .typed t _ => some (t, [])
  | ctx, .sym name =>
    match findVar ctx name with
    | some t => some (t, [])
    | none => some (.invalid, [.useOfUndeclaredIdentifier name])
  | ctx, .ifVar x e thenB elseB =>
    match analyzeMini (([] : MiniScope) :: ctx) e with
    | none => none
    | some (ety, es1) =>
      let vty := ifVarDeclType ety
      let redecl :=
        if (findVar ctx x).isSome then
          ((.invalid : ZType), [ZDiag.redeclarationOfVariable x])
        else (vty.1, [])
      let childCtx := [(x, redecl.1)] :: ctx
      match analyzeMini childCtx thenB with
      | none => none
      | some (tty, es3) =>
        match analyzeMini childCtx elseB with
        | none => none
        | some (ety2, es4) =>
          match determinePeerTypeCompatibility { ty := tty, lit := miniLit thenB }
              [{ ty := ety2, lit := miniLit elseB }] with
          | none => none
          | some (rty, es5) =>
            some (rty, es1 ++ vty.2 ++ redecl.2 ++ es3 ++ es4 ++ es5)

/-- Claim C7 counterexample: in
`if (var x ?= opt_i32) then x else x`, analyzing the else branch
resolves `x` successfully to the payload type — the bound variable IS
visible while the else branch is analyzed, because
`analyze_if_var_expr` passes the same child context to both branches.
No "use of undeclared identifier" diagnostic is produced and the whole
expression analyzes to (i32, no diagnostics). -/
theorem c7_counterexample :
    analyzeMini [] (.ifVar 0 (.typed (.maybe i32)) (.sym 0) (.sym 0)) =
      some (i32, []) := by
  decide

theorem ifVarDeclType_not_maybe {t : ZType} (h1 : t ≠ .invalid)
    (h2 : ∀ c, t ≠ .maybe c) :
    ifVarDeclType t = (.invalid, [.expectedMaybeType]) := by
  unfold ifVarDeclType
  rw [if_neg h1]
  split
  · rename_i c
    exact absurd rfl (h2 c)
  · rfl

theorem peer_pair_self (t : ZType) (l1 l2 : ZBigNum) :
    determinePeerTypeCompatibility { ty := t, lit := l1 }
      [{ ty := t, lit := l2 }] = some (t, []) := by
  unfold determinePeerTypeCompatibility
  by_cases ht : t = .invalid
  · rw [if_pos ht]
  · rw [if_neg ht]
    have hm : matchConstCastOnly t t = some true := by
      unfold matchConstCastOnly
      rw [if_pos rfl]
    unfold peerLoop peerDecide
    simp [ht, hm]
    unfold peerLoop
    rfl

/-- Claim C7 amended: `if (var x ?= expr)` requires `expr` of optional
type — any other non-Invalid initializer type reports
"expected maybe type" and binds x at type Invalid — and x of the
payload type T is bound in a child scope that covers BOTH branches:
with both branches referring to x, the else branch also resolves x and
the whole expression analyzes cleanly to T. -/
theorem c7_if_var_binds_both_branches :
    (∀ t : ZType,
      analyzeMini [] (.ifVar 0 (.typed (.maybe t)) (.sym 0) (.sym 0)) =
        some (t, [])) ∧
    (∀ t : ZType, t ≠ .invalid → (∀ c, t ≠ .maybe c) →
      analyzeMini [] (.ifVar 0 (.typed t) (.typed .void) (.typed .void)) =
        some (.void, [.expectedMaybeType])) := by
  constructor
  · intro t
    show (match analyzeMini [[]] (.typed (.maybe t)) with
      | none => none
      | some (ety, es1) => _) = _
    simp only [analyzeMini]
    have hd : ifVarDeclType (.maybe t) = (t, []) := by
      unfold ifVarDeclType
      rw [if_neg (by simp)]
    simp only [hd, findVar, List.lookup]
    simp [peer_pair_self]
  · intro t h1 h2
    show (match analyzeMini [[]] (.typed t) with
      | none => none
      | some (ety, es1) => _) = _
    simp only [analyzeMini]
    simp only [ifVarDeclType_not_maybe h1 h2, findVar, List.lookup]
    simp [peer_pair_self]

theorem c7_if_var_binds_both_branches_witness :
    analyzeMini [] (.ifVar 0 (.typed (.maybe i32)) (.sym 0) (.sym 0)) =
        some (i32, []) ∧
      analyzeMini [] (.ifVar 0 (.typed .boolT) (.typed .void) (.typed .void)) =
        some (.void, [.expectedMaybeType]) :=
  ⟨c7_if_var_binds_both_branches.1 i32,
   c7_if_var_binds_both_branches.2 .boolT (by decide) (fun c h => by cases h)⟩

/-- The resolution flags of a struct or enum `TypeTableEntry`
(`data.structure` / `data.enumeration`) consulted by
`resolve_struct_type` / `resolve_enum_type`: `embedded_in_current`,
`reported_infinite_err`, whether `fields` has been allocated (the
resolved-already test is `fields != nullptr`), `complete`, and
`is_invalid`. -/
structure ContState where
  embedded : Bool := false
  reported : Bool := false
  allocated : Bool := false
  complete : Bool := false
  isInvalid : Bool := false
  deriving DecidableEq, Repr

/-- Declarations: container id -> (is it a struct (vs enum), the
field/payload types produced by `analyze_type_expr` on its field type
expressions, in source order). -/
abbrev ContEnv := Nat → Bool × List ZType

/-- Resolution-state of all containers plus the diagnostics sink. -/
@[ext]
structure CState where
  conts : Nat → ContState
  errors : List ZDiag

def initCState : CState := { conts := fun _ => {}, errors := [] }

def updateCont (st : CState) (id : Nat) (f : ContState → ContState) : CState :=
  { st with conts := fun j => if j = id then f (st.conts j) else st.conts j }

/-- Embeds `resolve_struct_type` (analyze.cpp:816) and
`resolve_enum_type` (analyze.cpp:654), which share the same protection
protocol: a visit of an entry marked `embedded_in_current` reports
"struct/enum has infinite size" once (guarded by
`reported_infinite_err`) and returns; an entry with allocated fields
returns (already resolved); otherwise fields are allocated and
`embedded_in_current` set before the field loop, and afterwards
`embedded_in_current` is cleared and `complete` set true
unconditionally.  In the loop (analyze.cpp:856-896) struct and enum
field types are resolved recursively, an Invalid field type marks the
container invalid, and every other field type is left alone (`void`
only skips the gen index).  `fuel` bounds the recursion depth; the
source recursion terminates because every revisit of an in-progress or
resolved entry returns immediately. -/
def resolveContainer (env : ContEnv) : Nat → Nat → CState → CState
  | 0, _, st => st
  | fuel + 1, id, st =>
    let s := st.conts id
    if s.embedded then
      if s.reported = false then
        let st2 := updateCont st id fun s0 => { s0 with reported := true }
        { st2 with
          errors := st2.errors ++
            [if (env id).1 then ZDiag.structHasInfiniteSize id
             else ZDiag.enumHasInfiniteSize id] }
      else st
    else if s.allocated then st
    else
      let st1 := updateCont st id fun s0 =>
        { s0 with allocated := true, embedded := true }
      let st2 := (env id).2.foldl
        (fun acc fty =>
          match fty with
          | .structT fid => resolveContainer env fuel fid acc
          | .enumT fid => resolveContainer env fuel fid acc
          | .invalid => updateCont acc id fun s0 => { s0 with isInvalid := true }
          | _ => acc)
        st1
      updateCont st2 id fun s0 => { s0 with embedded := false, complete := true }

/-- The field-loop body of `resolveContainer`, named for the proofs. -/
def contFieldStep (env : ContEnv) (fuel id : Nat) (acc : CState)
    (fty : ZType) : CState :=
  match fty with
  | .structT fid => resolveContainer env fuel fid acc
  | .enumT fid => resolveContainer env fuel fid acc
  | .invalid => updateCont acc id fun s0 => { s0 with isInvalid := true }
  | _ => acc

theorem resolveContainer_succ (env : ContEnv) (fuel id : Nat) (st : CState) :
    resolveContainer env (fuel + 1) id st =
      if (st.conts id).embedded then
        if (st.conts id).reported = false then
          { updateCont st id (fun s0 => { s0 with reported := true }) with
            errors := st.errors ++
              [if (env id).1 then ZDiag.structHasInfiniteSize id
               else ZDiag.enumHasInfiniteSize id] }
        else st
      else if (st.conts id).allocated then st
      else
        updateCont
          ((env id).2.foldl (contFieldStep env fuel id)
            (updateCont st id fun s0 =>
              { s0 with allocated := true, embedded := true }))
          id (fun s0 => { s0 with embedded := false, complete := true }) := by
  rw [resolveContainer]
  rfl

/-- The state of the self-embedding container `id` while its own field
loop runs: fields allocated, `embedded_in_current` set, the
infinite-size error reported iff `r`, everything else untouched. -/
def midCState (id : Nat) (r : Bool) : CState :=
  { conts := fun j =>
      if j = id then { embedded := true, allocated := true, reported := r }
      else {},
    errors := if r then [ZDiag.structHasInfiniteSize id] else [] }

/-- A field type on which the resolution loop does nothing: neither a
struct nor an enum nor Invalid. -/
def inertField (fty : ZType) : Prop :=
  fty ≠ .invalid ∧ (∀ j, fty ≠ .structT j) ∧ (∀ j, fty ≠ .enumT j)

theorem contFieldStep_inert {fty : ZType} (h : inertField fty)
    (env : ContEnv) (fuel id : Nat) (acc : CState) :
    contFieldStep env fuel id acc fty = acc := by
  obtain ⟨h1, h2, h3⟩ := h
  cases fty
  case invalid => exact absurd rfl h1
  case structT j => exact absurd rfl (h2 j)
  case enumT j => exact absurd rfl (h3 j)
  all_goals rfl

theorem contFieldStep_self (env : ContEnv) (fuel id : Nat) (r : Bool)
    (hstruct : (env id).1 = true) :
    contFieldStep env (fuel + 1) id (midCState id r) (.structT id) =
      midCState id true := by
  show resolveContainer env (fuel + 1) id (midCState id r) = midCState id true
  rw [resolveContainer_succ]
  have hc : (midCState id r).conts id =
      { embedded := true, allocated := true, reported := r } := by
    unfold midCState
    simp
  rw [hc]
  rcases r
  · rw [if_pos rfl, if_pos rfl]
    ext j
    · unfold updateCont midCState
      simp only [hc]
      by_cases hj : j = id <;> simp [hj]
    · unfold updateCont midCState
      simp [hstruct]
  · rw [if_pos rfl, if_neg (by simp)]

theorem fold_self_fields (env : ContEnv) (fuel id : Nat)
    (hstruct : (env id).1 = true) :
    ∀ (flds : List ZType)
      (hflds : ∀ fld ∈ flds, fld = .structT id ∨ inertField fld) (r : Bool),
      flds.foldl (contFieldStep env (fuel + 1) id) (midCState id r) =
        midCState id (r || (flds.any fun fld => fld = .structT id)) := by
  intro flds
  induction flds with
  | nil => intro hflds r; simp
  | cons fld rest ih =>
    intro hflds r
    have hrest : ∀ fld2 ∈ rest, fld2 = .structT id ∨ inertField fld2 :=
      fun fld2 hm => hflds fld2 (List.mem_cons_of_mem fld hm)
    rcases hflds fld (List.mem_cons_self fld rest) with hf | hf
    · subst hf
      rw [List.foldl_cons, contFieldStep_self env fuel id r hstruct,
        ih hrest true]
      simp
    · rw [List.foldl_cons, contFieldStep_inert hf, ih hrest r]
      have : (decide (fld = ZType.structT id)) = false := by
        simp
        exact hf.2.1 id
      simp [this]

/-- Claim C2: a struct declaration that embeds itself by value (its
field list contains its own struct type; the remaining fields are
plain non-container types) resolves with the error
"struct has infinite size" reported exactly once, on that declaration,
and the struct's `complete` flag is nevertheless set to true, so a
later resolution pass returns immediately without re-reporting. -/
theorem c2_recursive_struct_reported_once (env : ContEnv) (id fuel : Nat)
    (hstruct : (env id).1 = true)
    (hself : ZType.structT id ∈ (env id).2)
    (hflds : ∀ fld ∈ (env id).2, fld = .structT id ∨ inertField fld) :
    (resolveContainer env (fuel + 2) id initCState).errors =
        [ZDiag.structHasInfiniteSize id] ∧
      ((resolveContainer env (fuel + 2) id initCState).conts id).complete =
        true := by
  have hinit : (initCState.conts id) = {} := rfl
  rw [show fuel + 2 = (fuel + 1) + 1 from rfl, resolveContainer_succ, hinit]
  rw [if_neg (by simp), if_neg (by simp)]
  have hmid : updateCont initCState id
      (fun s0 => { s0 with allocated := true, embedded := true }) =
      midCState id false := by
    ext j
    · unfold updateCont initCState midCState
      by_cases hj : j = id <;> simp [hj]
    · rfl
  rw [hmid, fold_self_fields env fuel id hstruct (env id).2 hflds false]
  have hany : ((env id).2.any fun fld => fld = .structT id) = true :=
    List.any_eq_true.mpr ⟨.structT id, hself, by simp⟩
  rw [hany]
  constructor
  · rfl
  · unfold updateCont midCState
    simp

theorem c2_recursive_struct_reported_once_witness :
    (resolveContainer (fun _ => (true, [ZType.structT 0])) 2 0
        initCState).errors = [ZDiag.structHasInfiniteSize 0] ∧
      ((resolveContainer (fun _ => (true, [ZType.structT 0])) 2 0
        initCState).conts 0).complete = true :=
  c2_recursive_struct_reported_once (fun _ => (true, [ZType.structT 0])) 0 0
    rfl (by simp) (by intro fld hf; simp at hf; exact Or.inl hf)

/-- The memoization fields of one `TypeTableEntry` through which the
interner canonicalizes constructed types: `pointer_parent[2]`
(get_pointer_to_type, analyze.cpp:153), `maybe_parent` (get_maybe_type,
analyze.cpp:196), `error_parent` (get_error_type, analyze.cpp:247) and
the `arrays_by_size` hash map (get_array_type, analyze.cpp:306).  The
payload irrelevant to handle identity (LLVM refs, debug info, name,
child links) is omitted. -/
structure InternEntry where
  pointerParentMut : Option Nat := none
  pointerParentConst : Option Nat := none
  maybeParent : Option Nat := none
  errorParent : Option Nat := none
  arraysBySize : List (Nat × Nat) := []
  deriving DecidableEq, Repr

/-- The session's type table: handles are indices of created entries. -/
abbrev InternStore := List InternEntry

/-- One interner call with its logical parameters; the child type is an
existing handle. -/
inductive InternOp : Type
  | ptr (child : Nat) (isConst : Bool)
  | arr (child : Nat) (size : Nat)
  | maybeOf (child : Nat)
  | errorOf (child : Nat)
  deriving DecidableEq, Repr

def InternOp.child : InternOp → Nat
  | .ptr c _ => c
  | .arr c _ => c
  | .maybeOf c => c
  | .errorOf c => c

/-- The memo field of `e` read by the fast path of the interner call
`op`. -/
def cacheField (e : InternEntry) : InternOp → Option Nat
  | .ptr _ ic => if ic then e.pointerParentConst else e.pointerParentMut
  | .arr _ n => e.arraysBySize.lookup n
  | .maybeOf _ => e.maybeParent
  | .errorOf _ => e.errorParent

/-- Writing the freshly created handle into the memo field consulted by
`op`. -/
def cacheSet (e : InternEntry) (op : InternOp) (h : Nat) : InternEntry :=
  match op with
  | .ptr _ ic =>
    if ic then { e with pointerParentConst := some h }
    else { e with pointerParentMut := some h }
  | .arr _ n => { e with arraysBySize := (n, h) :: e.arraysBySize }
  | .maybeOf _ => { e with maybeParent := some h }
  | .errorOf _ => { e with errorParent := some h }

def cacheLookup (st : InternStore) (op : InternOp) : Option Nat :=
  st[op.child]?.bind fun e => cacheField e op

def modifyEntry (st : InternStore) (c : Nat) (f : InternEntry → InternEntry) :
    InternStore :=
  match st[c]? with
  | none => st
  | some e => st.set c (f e)

def cacheStore (st : InternStore) (op : InternOp) (h : Nat) : InternStore :=
  modifyEntry st op.child (fun e => cacheSet e op h)

/-- One interner call: every interner operation first consults its memo
slot and returns the cached handle; otherwise it creates a fresh
`TypeTableEntry` (`new_type_table_entry`), records it in the child's
memo slot, and returns it.  The fresh handle is the next index. -/
def execOp (st : InternStore) (op : InternOp) : InternStore × Nat :=
  match cacheLookup st op with
  | some h => (st, h)
  | none => (cacheStore (st ++ [{}]) op st.length, st.length)

/-- Runs a session's interner calls in order, collecting the returned
handles. -/
def runOps (st : InternStore) : List InternOp → InternStore × List Nat
  | [] => (st, [])
  | op :: rest =>
    let r1 := execOp st op
    let r2 := runOps r1.1 rest
    (r2.1, r1.2 :: r2.2)

/-- Every call's child argument is an existing handle when the call
runs (the source asserts the child type is a live non-Invalid
entry). -/
def opsValid (st : InternStore) : List InternOp → Bool
  | [] => true
  | op :: rest => op.child < st.length && opsValid (execOp st op).1 rest

theorem cacheLookup_child_lt {st : InternStore} {op : InternOp} {h : Nat}
    (hl : cacheLookup st op = some h) : op.child < st.length := by
  unfold cacheLookup at hl
  rcases hb : st[op.child]? with _ | e
  · rw [hb] at hl
    simp at hl
  · exact (List.getElem?_eq_some.mp hb).1

theorem cacheField_cacheSet_self (e : InternEntry) (op : InternOp) (h : Nat) :
    cacheField (cacheSet e op h) op = some h := by
  cases op with
  | ptr c ic => rcases ic <;> simp [cacheField, cacheSet]
  | arr c n => simp [cacheField, cacheSet, List.lookup]
  | maybeOf c => rfl
  | errorOf c => rfl

theorem cacheField_cacheSet_other {op op' : InternOp} (e : InternEntry)
    (h : Nat) (hne : op ≠ op') (hch : op.child = op'.child) :
    cacheField (cacheSet e op' h) op = cacheField e op := by
  cases op with
  | ptr c ic =>
    cases op' with
    | ptr c2 ic2 =>
      have hic : ic ≠ ic2 := by
        intro hcon
        simp only [InternOp.child] at hch
        exact hne (by rw [hcon, hch])
      rcases ic <;> rcases ic2 <;> simp_all [cacheField, cacheSet]
    | arr c2 n => rcases ic <;> simp [cacheField, cacheSet]
    | maybeOf c2 => rcases ic <;> simp [cacheField, cacheSet]
    | errorOf c2 => rcases ic <;> simp [cacheField, cacheSet]
  | arr c n =>
    cases op' with
    | ptr c2 ic => rcases ic <;> simp [cacheField, cacheSet]
    | arr c2 n2 =>
      have hn : n ≠ n2 := by
        intro hcon
        simp only [InternOp.child] at hch
        exact hne (by rw [hcon, hch])
      simp [cacheField, cacheSet, List.lookup, beq_eq_false_iff_ne.mpr hn]
    | maybeOf c2 => simp [cacheField, cacheSet]
    | errorOf c2 => simp [cacheField, cacheSet]
  | maybeOf c =>
    cases op' with
    | ptr c2 ic => rcases ic <;> simp [cacheField, cacheSet]
    | arr c2 n => simp [cacheField, cacheSet]
    | maybeOf c2 =>
      simp only [InternOp.child] at hch
      exact absurd (by rw [hch]) hne
    | errorOf c2 => simp [cacheField, cacheSet]
  | errorOf c =>
    cases op' with
    | ptr c2 ic => rcases ic <;> simp [cacheField, cacheSet]
    | arr c2 n => simp [cacheField, cacheSet]
    | maybeOf c2 => simp [cacheField, cacheSet]
    | errorOf c2 =>
      simp only [InternOp.child] at hch
      exact absurd (by rw [hch]) hne

theorem cacheLookup_cacheStore_self {st : InternStore} {op : InternOp}
    {e : InternEntry} (h : Nat) (hb : st[op.child]? = some e) :
    cacheLookup (cacheStore st op h) op = some h := by
  unfold cacheLookup cacheStore modifyEntry
  rw [hb]
  have hlt : op.child < st.length := (List.getElem?_eq_some.mp hb).1
  rw [List.getElem?_set_eq_of_lt _ hlt]
  simp [cacheField_cacheSet_self]

theorem cacheLookup_cacheStore_other {st : InternStore} {op op' : InternOp}
    (h : Nat) (hne : op ≠ op') :
    cacheLookup (cacheStore st op' h) op = cacheLookup st op := by
  unfold cacheStore modifyEntry
  rcases hb : st[op'.child]? with _ | e
  · rfl
  · by_cases hch : op.child = op'.child
    · unfold cacheLookup
      rw [hch, List.getElem?_set_eq_of_lt _ (List.getElem?_eq_some.mp hb).1,
        hb]
      simp [cacheField_cacheSet_other e h hne hch]
    · unfold cacheLookup
      rw [List.getElem?_set_ne (fun hcon => hch hcon.symm)]

theorem cacheLookup_append {st : InternStore} {op : InternOp}
    (e0 : InternEntry) (hlt : op.child < st.length) :
    cacheLookup (st ++ [e0]) op = cacheLookup st op := by
  unfold cacheLookup
  rw [List.getElem?_append_left hlt]

theorem cacheLookup_execOp_persist {st : InternStore} {op op' : InternOp}
    {h : Nat} (hl : cacheLookup st op = some h) :
    cacheLookup (execOp st op').1 op = some h := by
  unfold execOp
  rcases hl2 : cacheLookup st op' with _ | h2
  · have hne : op ≠ op' := by
      intro hcon
      rw [hcon, hl2] at hl
      exact absurd hl (by simp)
    rw [cacheLookup_cacheStore_other st.length hne,
      cacheLookup_append _ (cacheLookup_child_lt hl)]
    exact hl
  · exact hl

theorem cacheLookup_execOp_sets {st : InternStore} {op : InternOp}
    (hc : op.child < st.length) :
    cacheLookup (execOp st op).1 op = some (execOp st op).2 := by
  unfold execOp
  rcases hl : cacheLookup st op with _ | h
  · have hb : (st ++ [({} : InternEntry)])[op.child]? = some st[op.child] := by
      rw [List.getElem?_append_left hc]
      exact List.getElem?_eq_getElem hc
    exact cacheLookup_cacheStore_self st.length hb
  · exact hl

theorem runOps_get_of_cached (ops : List InternOp) :
    ∀ (st : InternStore) (op : InternOp) (h : Nat),
      cacheLookup st op = some h →
      ∀ (k : Nat) (hk : k < ops.length), ops.get ⟨k, hk⟩ = op →
        (runOps st ops).2.getD k 0 = h := by
  induction ops with
  | nil =>
    intro st op h hl k hk
    exact absurd hk (by simp)
  | cons op0 rest ih =>
    intro st op h hl k hk hget
    match k with
    | 0 =>
      have hop : op0 = op := hget
      subst hop
      have hexec : execOp st op0 = (st, h) := by
        unfold execOp
        rw [hl]
      show ((runOps st (op0 :: rest)).2).getD 0 0 = h
      unfold runOps
      rw [hexec]
      rfl
    | k2 + 1 =>
      have hget2 : rest.get ⟨k2, by simpa using hk⟩ = op := hget
      have hl2 : cacheLookup (execOp st op0).1 op = some h :=
        cacheLookup_execOp_persist hl
      show ((runOps st (op0 :: rest)).2).getD (k2 + 1) 0 = h
      unfold runOps
      simp only [List.getD_cons_succ]
      exact ih (execOp st op0).1 op h hl2 k2 (by simpa using hk) hget2

theorem runOps_cons (st : InternStore) (op : InternOp) (rest : List InternOp) :
    runOps st (op :: rest) =
      ((runOps (execOp st op).1 rest).1,
        (execOp st op).2 :: (runOps (execOp st op).1 rest).2) := rfl

theorem runOps_idempotent_lt (ops : List InternOp) :
    ∀ (st : InternStore), opsValid st ops = true →
      ∀ (i j : Nat) (hij : i < j) (hj : j < ops.length),
        ops.get ⟨i, Nat.lt_trans hij hj⟩ = ops.get ⟨j, hj⟩ →
        (runOps st ops).2.getD i 0 = (runOps st ops).2.getD j 0 := by
  induction ops with
  | nil =>
    intro st hv i j hij hj
    exact absurd hj (by simp)
  | cons op0 rest ih =>
    intro st hv i j hij hj heq
    simp only [opsValid, Bool.and_eq_true, decide_eq_true_eq] at hv
    obtain ⟨hc, hv2⟩ := hv
    match i, j, hij, hj, heq with
    | 0, j2 + 1, hij, hj, heq =>
      have hop : rest.get ⟨j2, by simpa using hj⟩ = op0 := by
        exact heq.symm
      have hset := cacheLookup_execOp_sets hc
      rw [runOps_cons]
      simp only [List.getD_cons_zero, List.getD_cons_succ]
      exact (runOps_get_of_cached rest (execOp st op0).1 op0 (execOp st op0).2
        hset j2 (by simpa using hj) hop).symm
    | i2 + 1, j2 + 1, hij, hj, heq =>
      rw [runOps_cons]
      simp only [List.getD_cons_succ]
      exact ih (execOp st op0).1 hv2 i2 j2 (by omega) (by simpa using hj) heq

/-- Claim C1: within one session, any two interner calls with equal
logical parameters — `intern_pointer(pointee, is_const)`
(get_pointer_to_type), `intern_array(elem, len)` (get_array_type),
`intern_optional(inner)` (get_maybe_type),
`intern_error_union(ok)` (get_error_type) — return the identical type
handle, in whatever order and at whatever distance the two calls occur:
the interner is idempotent and order-independent. -/
theorem c1_interner_order_independent (st0 : InternStore)
    (ops : List InternOp) (hv : opsValid st0 ops = true) (i j : Nat)
    (hi : i < ops.length) (hj : j < ops.length)
    (heq : ops.get ⟨i, hi⟩ = ops.get ⟨j, hj⟩) :
    (runOps st0 ops).2.getD i 0 = (runOps st0 ops).2.getD j 0 := by
  rcases Nat.lt_trichotomy i j with h | h | h
  · exact runOps_idempotent_lt ops st0 hv i j h hj heq
  · rw [h]
  · exact (runOps_idempotent_lt ops st0 hv j i h hi heq.symm).symm

theorem c1_interner_order_independent_witness :
    (runOps [{}] [.ptr 0 false, .arr 0 3, .maybeOf 1, .ptr 0 false]).2.getD 0 0 =
      (runOps [{}] [.ptr 0 false, .arr 0 3, .maybeOf 1, .ptr 0 false]).2.getD 3 0 :=
  c1_interner_order_independent [{}]
    [.ptr 0 false, .arr 0 3, .maybeOf 1, .ptr 0 false]
    (by decide) 0 3 (by decide) (by decide) rfl
